import Mathlib

/-!
Verification of the spinlock library in `src/lib.rs` (crate `my_spin_lock`).

The code is a single Rust file. We shallowly embed it:

* `SpinLock T` models `SpinLock<T>`: the atomic boolean `locked` and the
  `UnsafeCell<T>` payload `value`. The atomic boolean is modelled as a plain
  `Bool` under a sequentially-consistent interleaving semantics; the memory
  orderings passed at each call site are recorded separately (`MemOrdering`,
  `FlagOp.successOrdering`, `FlagOp.failOrdering`) so claims about which
  ordering each operation uses can be stated.
* The atomic primitives the source calls — `AtomicBool::swap`,
  `AtomicBool::compare_exchange_weak`, `AtomicBool::store` — are embedded as
  pure functions on the lock state. `compare_exchange_weak` takes an extra
  `spurious : Bool` oracle: the weak form may fail even when the comparison
  would succeed, and `spurious = true` selects that outcome.
* The two acquisition loops are embedded twice, at two levels of precision:
  - trace level (`lockWithSwapRun`, `lockWithCasRun`): the loop is run against
    a schedule listing the flag value observed at each atomic step (plus the
    spurious-failure oracle for the weak CAS); the run records the emitted
    events, including the `std::hint::spin_loop()` calls;
  - solo level (`lockWithSwapSolo`, `lockWithCasSolo`): the loop runs on the
    actual lock state with no interference from other threads, with fuel,
    returning the number of attempts and the resulting state.
* Multi-threaded executions are modelled by the labelled transition system
  `SysStep` on `SysState`: each step is one atomic action of one thread
  (an acquisition attempt by either method, one payload access through the
  Guard, or the Guard drop), and `Reach` is its reflexive-transitive closure.
-/

namespace MySpinLock

/-- The `std::sync::atomic::Ordering` values appearing in the source. -/
inductive MemOrdering where
  | relaxed
  | acquire
  | release
deriving DecidableEq, Repr

/-- State of a `SpinLock<T>` (src/lib.rs lines 40-48): the atomic boolean
`locked` and the protected payload `value`. -/
structure SpinLock (T : Type) where
  locked : Bool
  value : T
deriving DecidableEq, Repr

/-- `SpinLock::new` (src/lib.rs lines 58-63): flag starts `false` (Free),
payload is the given initial value. It is a total (`const`) constructor. -/
def SpinLock.new {T : Type} (v : T) : SpinLock T :=
  { locked := false, value := v }

/-- `AtomicBool::swap b`: unconditionally stores `b` and returns the previous
value. Used in `lock_with_swap` (line 67) with `b = true`. -/
def atomicSwap {T : Type} (b : Bool) (s : SpinLock T) : Bool × SpinLock T :=
  (s.locked, { s with locked := b })

/-- `AtomicBool::compare_exchange_weak expected new _ _`: succeeds (returning
`true` and storing `new`) only when the current value equals `expected` and
the hardware does not fail spuriously (`spurious = false`); otherwise it fails
and leaves the flag unchanged. Used in `lock_with_cas` (lines 81-90) with
`expected = false`, `new = true`. -/
def atomicCompareExchangeWeak {T : Type} (expected nv spurious : Bool)
    (s : SpinLock T) : Bool × SpinLock T :=
  if s.locked = expected ∧ spurious = false then
    (true, { s with locked := nv })
  else
    (false, s)

/-- `AtomicBool::store b`: unconditionally stores `b`. Used in
`Drop for Guard` (lines 32-38) and `SpinLock::unlock` (lines 97-100), both
with `b = false`. -/
def atomicStore {T : Type} (b : Bool) (s : SpinLock T) : SpinLock T :=
  { s with locked := b }

/-- `Drop for Guard` (src/lib.rs lines 32-38): the guard's destructor stores
`false` into the flag (with Release ordering, recorded in `FlagOp`). -/
def guardDrop {T : Type} (s : SpinLock T) : SpinLock T :=
  atomicStore false s

/-- `SpinLock::unlock` (src/lib.rs lines 97-100): unconditionally stores
`false` into the flag (with Release ordering, recorded in `FlagOp`). -/
def SpinLock.unlock {T : Type} (s : SpinLock T) : SpinLock T :=
  atomicStore false s

/-- The four atomic operations on the flag appearing in the source, one per
call site: the swap in `lock_with_swap` (line 67), the weak compare-exchange
in `lock_with_cas` (lines 81-90, with its spurious-failure oracle), the store
in `Drop for Guard` (lines 34-36), and the store in `unlock` (lines 98-99). -/
inductive FlagOp where
  | swapInLock
  | casInLock (spurious : Bool)
  | storeInDrop
  | storeInUnlock
deriving DecidableEq, Repr

/-- Effect of each flag operation on the flag value, as written in the
source: the swap writes `true`; the weak compare-exchange writes `true` only
on success (flag was `false` and no spurious failure); both stores write
`false`. -/
def FlagOp.apply : FlagOp → Bool → Bool
  | .swapInLock, _ => true
  | .casInLock spurious, b => if b = false ∧ spurious = false then true else b
  | .storeInDrop, _ => false
  | .storeInUnlock, _ => false

/-- The `Ordering` argument each call site passes for the successful case:
`Acquire` for both acquisition primitives, `Release` for both stores. -/
def FlagOp.successOrdering : FlagOp → MemOrdering
  | .swapInLock => .acquire
  | .casInLock _ => .acquire
  | .storeInDrop => .release
  | .storeInUnlock => .release

/-- The failure `Ordering`: only `compare_exchange_weak` takes one, and the
source passes `Relaxed` (line 87). -/
def FlagOp.failOrdering : FlagOp → Option MemOrdering
  | .casInLock _ => some .relaxed
  | _ => none

/-- Whether the operation is one of the two acquisition primitives. -/
def FlagOp.isAcquireOp : FlagOp → Bool
  | .swapInLock => true
  | .casInLock _ => true
  | _ => false

/-- Whether the acquisition primitive succeeds (acquires the lock) when it
runs on flag value `b`: the swap succeeds exactly when the previous value was
`false`; the weak compare-exchange succeeds when the flag was `false` and the
attempt is not spuriously failed. Stores are not acquisitions. -/
def FlagOp.acquireSucceeds : FlagOp → Bool → Bool
  | .swapInLock, b => !b
  | .casInLock spurious, b => !b && !spurious
  | .storeInDrop, _ => false
  | .storeInUnlock, _ => false

/-- Observable events of an acquisition loop: one atomic swap attempt
recording the previous flag value, one weak compare-exchange attempt
recording the flag value observed and the spurious oracle and whether it
succeeded, and one `std::hint::spin_loop()` call. -/
inductive SpinEvent where
  | swapStep (prev : Bool)
  | casStep (flag spurious ok : Bool)
  | spinHint
deriving DecidableEq, Repr

/-- One run of the `lock_with_swap` loop (src/lib.rs lines 66-75) against a
schedule listing the flag value at each successive atomic swap (other threads
may change the flag between attempts, so any boolean sequence can occur).
Returns the events in order and `true` when the loop exited (the lock was
acquired within the schedule). Per the source, each swap whose previous value
was `true` is followed by `std::hint::spin_loop()` and a retry; the loop
exits as soon as a swap reads previous value `false`. -/
def lockWithSwapRun : List Bool → List SpinEvent × Bool
  | [] => ([], false)
  | prev :: rest =>
    if prev then
      let r := lockWithSwapRun rest
      (SpinEvent.swapStep true :: SpinEvent.spinHint :: r.1, r.2)
    else
      ([SpinEvent.swapStep false], true)

/-- One run of the `lock_with_cas` loop (src/lib.rs lines 80-92) against a
schedule listing, for each successive attempt, the flag value at the
compare-exchange and the spurious-failure oracle. Per the source, the loop
body is empty — a failed attempt retries immediately with no
`spin_loop()` hint — and the loop exits as soon as one compare-exchange
succeeds. -/
def lockWithCasRun : List (Bool × Bool) → List SpinEvent × Bool
  | [] => ([], false)
  | (flag, spurious) :: rest =>
    if flag = false ∧ spurious = false then
      ([SpinEvent.casStep flag spurious true], true)
    else
      let r := lockWithCasRun rest
      (SpinEvent.casStep flag spurious false :: r.1, r.2)

/-- `lock_with_swap` run on the actual lock state with no interference from
other threads, with fuel bounding the number of attempts to keep the
embedding total (the source loop itself has no bound: on a held flag with no
interference it spins forever, which the model renders as `none` for every
fuel). Returns `some (attempts, finalState)` when the loop exits within the
fuel. -/
def lockWithSwapSolo {T : Type} : Nat → SpinLock T → Option (Nat × SpinLock T)
  | 0, _ => none
  | fuel + 1, s =>
    let r := atomicSwap true s
    if r.1 then
      (lockWithSwapSolo fuel r.2).map (fun p => (p.1 + 1, p.2))
    else
      some (1, r.2)

/-- `lock_with_cas` run on the actual lock state with no interference from
other threads; the list supplies the spurious-failure oracle for each
successive attempt (the run gives up, returning `none`, when the list is
exhausted without a success). Returns `some (attempts, finalState)` when some
compare-exchange succeeds. -/
def lockWithCasSolo {T : Type} : List Bool → SpinLock T → Option (Nat × SpinLock T)
  | [], _ => none
  | spurious :: rest, s =>
    let r := atomicCompareExchangeWeak false true spurious s
    if r.1 then
      some (1, r.2)
    else
      (lockWithCasSolo rest r.2).map (fun p => (p.1 + 1, p.2))

/-! ### Multi-threaded interleaving semantics

A system state is the shared flag, the shared payload, and one phase per
thread. A thread acquiring the lock carries the critical-section program it
will run once it holds it (a list of payload updates, modelling reads/writes
performed through the Guard's `Deref`/`DerefMut`); a thread in its critical
section holds the Guard and has the remaining updates pending; dropping the
Guard moves it to `finished`. Each `SysStep` is one atomic action of one
thread, so executions are arbitrary interleavings. -/

/-- Which acquisition entry point a thread uses. -/
inductive AcquireMethod where
  | swap
  | cas
deriving DecidableEq, Repr

/-- Phase of one thread. -/
inductive Phase (V : Type) where
  | acquiring (m : AcquireMethod) (prog : List (V → V))
  | critical (pending : List (V → V))
  | finished

/-- Shared state of the whole system. -/
structure SysState (V : Type) where
  flag : Bool
  value : V
  threads : List (Phase V)

/-- Labels naming what a step did and which thread did it. -/
inductive Label where
  | spin (i : Nat)
  | acquired (i : Nat)
  | access (i : Nat)
  | released (i : Nat)
deriving DecidableEq, Repr

/-- One atomic step of one thread, indexed by thread position.

* `swapFail`: the swap in `lock_with_swap` on a held flag reads previous
  value `true` and writes `true`, leaving the state unchanged; the thread
  stays in its loop.
* `swapOk`: the swap on a free flag reads `false`, sets the flag, and the
  loop exits: the thread now holds the Guard.
* `casFail`: the weak compare-exchange fails (held flag, or a spurious
  failure — allowed at any time), changing nothing.
* `casOk`: the compare-exchange on a free flag succeeds, setting the flag;
  the thread now holds the Guard.
* `accessStep`: a thread holding the Guard applies the next update of its
  critical section to the payload.
* `releaseStep`: a thread whose critical section is done drops the Guard,
  which stores `false` into the flag. -/
inductive SysStep {V : Type} : SysState V → Label → SysState V → Prop where
  | swapFail (s : SysState V) (i : Nat) (prog : List (V → V))
      (ht : s.threads[i]? = some (.acquiring .swap prog))
      (hf : s.flag = true) :
      SysStep s (.spin i) s
  | swapOk (s : SysState V) (i : Nat) (prog : List (V → V))
      (ht : s.threads[i]? = some (.acquiring .swap prog))
      (hf : s.flag = false) :
      SysStep s (.acquired i)
        { flag := true, value := s.value,
          threads := s.threads.set i (.critical prog) }
  | casFail (s : SysState V) (i : Nat) (prog : List (V → V))
      (ht : s.threads[i]? = some (.acquiring .cas prog)) :
      SysStep s (.spin i) s
  | casOk (s : SysState V) (i : Nat) (prog : List (V → V))
      (ht : s.threads[i]? = some (.acquiring .cas prog))
      (hf : s.flag = false) :
      SysStep s (.acquired i)
        { flag := true, value := s.value,
          threads := s.threads.set i (.critical prog) }
  | accessStep (s : SysState V) (i : Nat) (f : V → V) (rest : List (V → V))
      (ht : s.threads[i]? = some (.critical (f :: rest))) :
      SysStep s (.access i)
        { flag := s.flag, value := f s.value,
          threads := s.threads.set i (.critical rest) }
  | releaseStep (s : SysState V) (i : Nat)
      (ht : s.threads[i]? = some (.critical [])) :
      SysStep s (.released i)
        { flag := false, value := s.value,
          threads := s.threads.set i .finished }

/-- Reflexive-transitive closure of `SysStep` under any labels: the states an
execution can reach. -/
inductive Reach {V : Type} : SysState V → SysState V → Prop where
  | refl (s : SysState V) : Reach s s
  | tail {a b c : SysState V} {l : Label} (hab : Reach a b)
      (hbc : SysStep b l c) : Reach a c

/-- Initial system state: flag Free (`SpinLock::new`), given payload, every
thread about to call its acquisition operation with its critical-section
program. -/
def initSys {V : Type} (v : V) (progs : List (AcquireMethod × List (V → V))) :
    SysState V :=
  { flag := false, value := v,
    threads := progs.map (fun p => Phase.acquiring p.1 p.2) }

/-- Thread `i` currently holds the lock (a Guard for it is live). -/
def holdsLock {V : Type} (s : SysState V) (i : Nat) : Prop :=
  ∃ pending, s.threads[i]? = some (Phase.critical pending)

/-- The mutual-exclusion invariant: at most one thread holds a Guard, and a
held Guard implies the flag is set. -/
def MutexInv {V : Type} (s : SysState V) : Prop :=
  (∀ i j, holdsLock s i → holdsLock s j → i = j) ∧
  (∀ i, holdsLock s i → s.flag = true)

/-! ### Invariant lemmas -/

/-- In the initial state no thread holds a Guard: every thread is still
`acquiring`. -/
theorem holdsLock_init {V : Type} (v : V)
    (progs : List (AcquireMethod × List (V → V))) (i : Nat) :
    ¬ holdsLock (initSys v progs) i := by
  rintro ⟨ps, h⟩
  rw [initSys] at h
  simp only [List.getElem?_map] at h
  cases hp : progs[i]? with
  | none => rw [hp] at h; exact Option.noConfusion h
  | some p => rw [hp] at h; exact Phase.noConfusion (Option.some.inj h)

/-- The initial state satisfies the mutual-exclusion invariant. -/
theorem mutexInv_init {V : Type} (v : V)
    (progs : List (AcquireMethod × List (V → V))) :
    MutexInv (initSys v progs) :=
  ⟨fun i _ hi _ => absurd hi (holdsLock_init v progs i),
   fun i hi => absurd hi (holdsLock_init v progs i)⟩

/-- Acquiring on a free flag preserves the invariant: since the flag was
free, no thread held a Guard, so afterwards the acquirer is the only
holder. -/
theorem mutexInv_acquire {V : Type} {s : SysState V} (i : Nat)
    (ph : List (V → V)) (hf : s.flag = false) (hinv : MutexInv s) :
    MutexInv { flag := true, value := s.value,
               threads := s.threads.set i (Phase.critical ph) } := by
  have hnone : ∀ j, ¬ holdsLock s j := by
    intro j hj
    rw [hinv.2 j hj] at hf
    exact Bool.noConfusion hf
  have key : ∀ a, holdsLock
      { flag := true, value := s.value,
        threads := s.threads.set i (Phase.critical ph) } a → a = i := by
    rintro a ⟨ps, hget⟩
    by_cases hai : a = i
    · exact hai
    · rw [List.getElem?_set_ne (fun h => hai h.symm)] at hget
      exact absurd ⟨ps, hget⟩ (hnone a)
  exact ⟨fun a b ha hb => (key a ha).trans (key b hb).symm, fun _ _ => rfl⟩

/-- Every step preserves the mutual-exclusion invariant. -/
theorem mutexInv_step {V : Type} {s s2 : SysState V} {l : Label}
    (hstep : SysStep s l s2) (hinv : MutexInv s) : MutexInv s2 := by
  cases hstep with
  | swapFail i prog ht hf => exact hinv
  | casFail i prog ht => exact hinv
  | swapOk i prog ht hf => exact mutexInv_acquire i prog hf hinv
  | casOk i prog ht hf => exact mutexInv_acquire i prog hf hinv
  | accessStep i f rest ht =>
    have hi : holdsLock s i := ⟨f :: rest, ht⟩
    have key : ∀ a, holdsLock
        { flag := s.flag, value := f s.value,
          threads := s.threads.set i (Phase.critical rest) } a →
        holdsLock s a := by
      rintro a ⟨ps, hget⟩
      by_cases hai : a = i
      · subst hai; exact hi
      · rw [List.getElem?_set_ne (fun h => hai h.symm)] at hget
        exact ⟨ps, hget⟩
    exact ⟨fun a b ha hb => hinv.1 a b (key a ha) (key b hb),
           fun a ha => hinv.2 a (key a ha)⟩
  | releaseStep i ht =>
    have hi : holdsLock s i := ⟨[], ht⟩
    have hlen : i < s.threads.length := (List.getElem?_eq_some.mp ht).1
    have key : ∀ a, ¬ holdsLock
        { flag := false, value := s.value,
          threads := s.threads.set i Phase.finished } a := by
      rintro a ⟨ps, hget⟩
      by_cases hai : a = i
      · subst hai
        rw [List.getElem?_set_eq_of_lt Phase.finished hlen] at hget
        exact Phase.noConfusion (Option.some.inj hget)
      · rw [List.getElem?_set_ne (fun h => hai h.symm)] at hget
        exact hai (hinv.1 a i ⟨ps, hget⟩ hi)
    exact ⟨fun a _ ha => absurd ha (key a), fun a ha => absurd ha (key a)⟩

/-- Every reachable state satisfies the invariant it started with. -/
theorem mutexInv_reach {V : Type} {s0 s : SysState V} (h : Reach s0 s)
    (h0 : MutexInv s0) : MutexInv s := by
  induction h with
  | refl => exact h0
  | tail hab hbc ih => exact mutexInv_step hbc ih

/-! ### The claims -/

/-- C1. Mutual exclusion: in every state reachable from an initial state —
any number of threads, each calling `lock_with_swap` or `lock_with_cas` on
the same `SpinLock`, interleaved arbitrarily — at most one Guard is live, and
any payload access is performed by the unique Guard holder, so reads/writes
of distinct critical sections never interleave and every execution is
consistent with the total order in which the critical sections acquired the
lock. -/
theorem spinlock_mutual_exclusion {V : Type} (v : V)
    (progs : List (AcquireMethod × List (V → V))) (s : SysState V)
    (hreach : Reach (initSys v progs) s) :
    (∀ i j, holdsLock s i → holdsLock s j → i = j) ∧
    (∀ i s2, SysStep s (Label.access i) s2 → ∀ j, holdsLock s j → j = i) := by
  have hinv : MutexInv s := mutexInv_reach hreach (mutexInv_init v progs)
  refine ⟨hinv.1, ?_⟩
  intro i s2 hstep j hj
  cases hstep
  rename_i f rest ht
  exact hinv.1 j i hj ⟨f :: rest, ht⟩

/-- Witness for C1 at a concrete two-thread system, after thread 0 has
performed a successful swap-acquisition step. -/
theorem spinlock_mutual_exclusion_witness :
    (∀ i j,
      holdsLock (SysState.mk true (0 : Nat)
        ((List.map (fun p => Phase.acquiring p.1 p.2)
          [(AcquireMethod.swap, [fun v => v + 1]),
           (AcquireMethod.cas, [fun v => v + 2])]).set 0
          (Phase.critical [fun v => v + 1]))) i →
      holdsLock (SysState.mk true (0 : Nat)
        ((List.map (fun p => Phase.acquiring p.1 p.2)
          [(AcquireMethod.swap, [fun v => v + 1]),
           (AcquireMethod.cas, [fun v => v + 2])]).set 0
          (Phase.critical [fun v => v + 1]))) j → i = j) ∧
    (∀ i s2, SysStep (SysState.mk true (0 : Nat)
        ((List.map (fun p => Phase.acquiring p.1 p.2)
          [(AcquireMethod.swap, [fun v => v + 1]),
           (AcquireMethod.cas, [fun v => v + 2])]).set 0
          (Phase.critical [fun v => v + 1]))) (Label.access i) s2 →
      ∀ j, holdsLock (SysState.mk true (0 : Nat)
        ((List.map (fun p => Phase.acquiring p.1 p.2)
          [(AcquireMethod.swap, [fun v => v + 1]),
           (AcquireMethod.cas, [fun v => v + 2])]).set 0
          (Phase.critical [fun v => v + 1]))) j → j = i) :=
  spinlock_mutual_exclusion 0
    [(AcquireMethod.swap, [fun v => v + 1]),
     (AcquireMethod.cas, [fun v => v + 2])] _
    (Reach.tail (Reach.refl _)
      (SysStep.swapOk _ 0 [fun v => v + 1] rfl rfl))

/-- C2. The flag only ever transitions Free→Held — and only by a successful
acquisition primitive (the swap of `lock_with_swap`, or the weak
compare-exchange of `lock_with_cas` succeeding) — or Held→Free — and only by
the stores of Guard drop and `unlock`; every other application of a flag
operation leaves the flag unchanged, and `new` starts the flag at Free. -/
theorem flag_transitions {T : Type} (v : T) (op : FlagOp) (b : Bool) :
    (SpinLock.new v).locked = false ∧
    (FlagOp.apply op b = b ∨
      (b = false ∧ FlagOp.apply op b = true ∧ op.isAcquireOp = true ∧
        op.acquireSucceeds b = true) ∨
      (b = true ∧ FlagOp.apply op b = false ∧
        (op = FlagOp.storeInDrop ∨ op = FlagOp.storeInUnlock))) := by
  refine ⟨rfl, ?_⟩
  cases op with
  | swapInLock => cases b <;> decide
  | casInLock spurious => cases b <;> cases spurious <;> decide
  | storeInDrop => cases b <;> decide
  | storeInUnlock => cases b <;> decide

/-- C3. `new` builds a lock whose flag is Free and whose payload is exactly
the given initial value; as a total (`const fn`) constructor it has no
failure mode. -/
theorem new_spec {T : Type} (v : T) :
    (SpinLock.new v).locked = false ∧ (SpinLock.new v).value = v :=
  ⟨rfl, rfl⟩

/-- On an all-Held schedule the swap loop never exits: every attempt reads
previous value `true`, emits the spin hint, and retries. -/
theorem lockWithSwapRun_all_held (obs : List Bool) (h : ∀ b ∈ obs, b = true) :
    lockWithSwapRun obs =
      ((List.replicate obs.length
        [SpinEvent.swapStep true, SpinEvent.spinHint]).flatten, false) := by
  induction obs with
  | nil => rfl
  | cons b rest ih =>
    have hb : b = true := h b (List.mem_cons_self b rest)
    subst hb
    have hr := ih (fun x hx => h x (List.mem_cons_of_mem _ hx))
    simp [lockWithSwapRun, hr, List.replicate_succ]

/-- The swap loop exits at the first Free observation, having emitted one
spin hint after each of the preceding failed attempts. -/
theorem lockWithSwapRun_acquires (pre post : List Bool)
    (h : ∀ b ∈ pre, b = true) :
    lockWithSwapRun (pre ++ false :: post) =
      ((List.replicate pre.length
        [SpinEvent.swapStep true, SpinEvent.spinHint]).flatten
        ++ [SpinEvent.swapStep false], true) := by
  induction pre with
  | nil => rfl
  | cons b rest ih =>
    have hb : b = true := h b (List.mem_cons_self b rest)
    subst hb
    have hr := ih (fun x hx => h x (List.mem_cons_of_mem _ hx))
    simp [lockWithSwapRun, hr, List.replicate_succ]

/-- The compare-exchange loop exits at the first successful attempt, a failed
attempt adding nothing but the attempt itself to the trace. -/
theorem lockWithCasRun_acquires (pre post : List (Bool × Bool))
    (h : ∀ p ∈ pre, ¬(p.1 = false ∧ p.2 = false)) :
    lockWithCasRun (pre ++ (false, false) :: post) =
      (pre.map (fun p => SpinEvent.casStep p.1 p.2 false)
        ++ [SpinEvent.casStep false false true], true) := by
  induction pre with
  | nil => rfl
  | cons p rest ih =>
    obtain ⟨f1, f2⟩ := p
    have hp := h (f1, f2) (List.mem_cons_self _ _)
    have hr := ih (fun x hx => h x (List.mem_cons_of_mem _ hx))
    simp [lockWithCasRun, hp, hr]

/-- The compare-exchange loop acquires within a schedule exactly when the
schedule offers an attempt with a Free flag and no spurious failure. -/
theorem lockWithCasRun_acquired_iff (obs : List (Bool × Bool)) :
    (lockWithCasRun obs).2 = true ↔ ∃ p ∈ obs, p.1 = false ∧ p.2 = false := by
  induction obs with
  | nil => simp [lockWithCasRun]
  | cons p rest ih =>
    obtain ⟨f1, f2⟩ := p
    by_cases h : f1 = false ∧ f2 = false
    · simp [lockWithCasRun, h]
    · simp [lockWithCasRun, h, ih]

/-- C4. `lock_with_swap` repeatedly performs an atomic exchange that
unconditionally writes Held (`true`) and reads the previous value; while the
previous value was Held it retries, emitting `spin_loop` between attempts
(and never exits on an all-Held schedule); it exits the loop, acquired, at
the first attempt whose previous value was Free. -/
theorem lock_with_swap_spec {T : Type} (s : SpinLock T) (pre post : List Bool)
    (hpre : ∀ b ∈ pre, b = true) :
    ((atomicSwap true s).2.locked = true ∧ (atomicSwap true s).1 = s.locked ∧
      (atomicSwap true s).2.value = s.value) ∧
    lockWithSwapRun (pre ++ false :: post) =
      ((List.replicate pre.length
        [SpinEvent.swapStep true, SpinEvent.spinHint]).flatten
        ++ [SpinEvent.swapStep false], true) ∧
    (∀ obs : List Bool, (∀ b ∈ obs, b = true) →
      lockWithSwapRun obs =
        ((List.replicate obs.length
          [SpinEvent.swapStep true, SpinEvent.spinHint]).flatten, false)) :=
  ⟨⟨rfl, rfl, rfl⟩, lockWithSwapRun_acquires pre post hpre,
    lockWithSwapRun_all_held⟩

/-- Witness for C4: two failed attempts, then a Free observation. -/
theorem lock_with_swap_spec_witness :
    (∀ b ∈ [true, true], b = true) ∧
    (((atomicSwap true (SpinLock.new (0 : Nat))).2.locked = true ∧
      (atomicSwap true (SpinLock.new (0 : Nat))).1 =
        (SpinLock.new (0 : Nat)).locked ∧
      (atomicSwap true (SpinLock.new (0 : Nat))).2.value =
        (SpinLock.new (0 : Nat)).value) ∧
    lockWithSwapRun ([true, true] ++ false :: [true]) =
      ((List.replicate (List.length [true, true])
        [SpinEvent.swapStep true, SpinEvent.spinHint]).flatten
        ++ [SpinEvent.swapStep false], true) ∧
    (∀ obs : List Bool, (∀ b ∈ obs, b = true) →
      lockWithSwapRun obs =
        ((List.replicate obs.length
          [SpinEvent.swapStep true, SpinEvent.spinHint]).flatten, false))) :=
  ⟨by decide, lock_with_swap_spec (SpinLock.new 0) [true, true] [true]
    (by decide)⟩

/-- C5. The weak compare-exchange of `lock_with_cas` succeeds exactly when
the flag is Free and no spurious failure occurs, in which case it replaces
the flag by Held; on failure it leaves the lock untouched; it may fail
spuriously even on a Free flag; and the loop returns the Guard exactly when
one of its compare-exchange attempts succeeds. -/
theorem lock_with_cas_spec {T : Type} (spurious : Bool) (s : SpinLock T)
    (pre post : List (Bool × Bool))
    (hpre : ∀ p ∈ pre, ¬(p.1 = false ∧ p.2 = false)) :
    ((atomicCompareExchangeWeak false true spurious s).1 = true ↔
      s.locked = false ∧ spurious = false) ∧
    ((atomicCompareExchangeWeak false true spurious s).1 = true →
      (atomicCompareExchangeWeak false true spurious s).2 = { s with locked := true }) ∧
    ((atomicCompareExchangeWeak false true spurious s).1 = false →
      (atomicCompareExchangeWeak false true spurious s).2 = s) ∧
    (s.locked = false → (atomicCompareExchangeWeak false true true s).1 = false) ∧
    lockWithCasRun (pre ++ (false, false) :: post) =
      (pre.map (fun p => SpinEvent.casStep p.1 p.2 false)
        ++ [SpinEvent.casStep false false true], true) ∧
    (∀ obs, (lockWithCasRun obs).2 = true ↔
      ∃ p ∈ obs, p.1 = false ∧ p.2 = false) := by
  refine ⟨?_, ?_, ?_, ?_, lockWithCasRun_acquires pre post hpre,
    lockWithCasRun_acquired_iff⟩ <;>
    by_cases h : s.locked = false ∧ spurious = false <;>
      simp [atomicCompareExchangeWeak, h]

/-- Witness for C5: a spurious failure and a Held-flag failure, then a
successful attempt. -/
theorem lock_with_cas_spec_witness :
    (∀ p ∈ [((false : Bool), true), (true, false)], ¬(p.1 = false ∧ p.2 = false)) ∧
    (((atomicCompareExchangeWeak false true false (SpinLock.new (0 : Nat))).1 = true ↔
      (SpinLock.new (0 : Nat)).locked = false ∧ false = false) ∧
    ((atomicCompareExchangeWeak false true false (SpinLock.new (0 : Nat))).1 = true →
      (atomicCompareExchangeWeak false true false (SpinLock.new (0 : Nat))).2 =
        { SpinLock.new (0 : Nat) with locked := true }) ∧
    ((atomicCompareExchangeWeak false true false (SpinLock.new (0 : Nat))).1 = false →
      (atomicCompareExchangeWeak false true false (SpinLock.new (0 : Nat))).2 =
        SpinLock.new (0 : Nat)) ∧
    ((SpinLock.new (0 : Nat)).locked = false →
      (atomicCompareExchangeWeak false true true (SpinLock.new (0 : Nat))).1 = false) ∧
    lockWithCasRun ([((false : Bool), true), (true, false)] ++ (false, false) :: []) =
      (List.map (fun p => SpinEvent.casStep p.1 p.2 false)
        [((false : Bool), true), (true, false)]
        ++ [SpinEvent.casStep false false true], true) ∧
    (∀ obs, (lockWithCasRun obs).2 = true ↔
      ∃ p ∈ obs, p.1 = false ∧ p.2 = false)) :=
  ⟨by decide, lock_with_cas_spec false (SpinLock.new 0)
    [((false : Bool), true), (true, false)] [] (by decide)⟩

/-- No run of the `lock_with_cas` loop ever emits a spin hint: its loop body
is empty in the source. -/
theorem lockWithCasRun_no_hint (obs : List (Bool × Bool)) :
    SpinEvent.spinHint ∉ (lockWithCasRun obs).1 := by
  induction obs with
  | nil => simp [lockWithCasRun]
  | cons p rest ih =>
    obtain ⟨f1, f2⟩ := p
    by_cases h : f1 = false ∧ f2 = false
    · simp [lockWithCasRun, h]
    · simp [lockWithCasRun, h, ih]

/-- The swap loop emits exactly one spin hint per failed attempt: as many as
the leading Held observations of its schedule. -/
theorem lockWithSwapRun_hint_count (obs : List Bool) :
    List.count SpinEvent.spinHint (lockWithSwapRun obs).1 =
      (obs.takeWhile (fun b => b)).length := by
  induction obs with
  | nil => rfl
  | cons b rest ih =>
    cases b
    · simp [lockWithSwapRun, List.takeWhile]
    · simp [lockWithSwapRun, List.takeWhile, List.count_cons, ih]

/-- C6 counterexample: on schedules where each loop fails exactly once
before acquiring, `lock_with_swap` emits a spin hint but `lock_with_cas`
emits none — the claim that `lock_with_cas` emits the same spin hint on each
failed attempt is false at this input. -/
theorem cas_spin_hint_counterexample :
    SpinEvent.spinHint ∈ (lockWithSwapRun [true, false]).1 ∧
    SpinEvent.spinHint ∉ (lockWithCasRun [(true, false), (false, false)]).1 := by
  decide

/-- C6 amended: the `lock_with_cas` loop body is empty, so no run of it
emits any spin hint at all, whereas `lock_with_swap` emits exactly one spin
hint per failed attempt. -/
theorem cas_no_spin_hint :
    (∀ obs : List (Bool × Bool), SpinEvent.spinHint ∉ (lockWithCasRun obs).1) ∧
    (∀ obs : List Bool,
      List.count SpinEvent.spinHint (lockWithSwapRun obs).1 =
        (obs.takeWhile (fun b => b)).length) :=
  ⟨lockWithCasRun_no_hint, lockWithSwapRun_hint_count⟩

/-- C7. Dropping the Guard stores Free into the flag while leaving the
payload untouched — on a Held lock this is exactly the Held→Free
transition — the store is tagged Release, and the drop store and the
`unlock` store are the only flag operations in the source that use Release
ordering anywhere. (That the destructor runs exactly once on every scope
exit is the Rust drop guarantee; the model applies `guardDrop` once per
Guard.) -/
theorem guard_drop_spec {T : Type} (s : SpinLock T) :
    (guardDrop s).locked = false ∧ (guardDrop s).value = s.value ∧
    FlagOp.apply FlagOp.storeInDrop true = false ∧
    FlagOp.successOrdering FlagOp.storeInDrop = MemOrdering.release ∧
    (∀ op : FlagOp, (op.successOrdering = MemOrdering.release ∨
        op.failOrdering = some MemOrdering.release) →
      (op = FlagOp.storeInDrop ∨ op = FlagOp.storeInUnlock)) := by
  refine ⟨rfl, rfl, rfl, rfl, ?_⟩
  intro op hop
  cases op with
  | swapInLock => rcases hop with h | h <;> exact absurd h (by decide)
  | casInLock spurious =>
    cases spurious <;> rcases hop with h | h <;> exact absurd h (by decide)
  | storeInDrop => exact Or.inl rfl
  | storeInUnlock => exact Or.inr rfl

/-- C8. `unlock` unconditionally stores Free with Release ordering, for
every prior flag state, and leaves the payload untouched. -/
theorem unlock_spec {T : Type} (s : SpinLock T) :
    (s.unlock).locked = false ∧ (s.unlock).value = s.value ∧
    FlagOp.successOrdering FlagOp.storeInUnlock = MemOrdering.release ∧
    (∀ b : Bool, FlagOp.apply FlagOp.storeInUnlock b = false) :=
  ⟨rfl, rfl, rfl, fun _ => rfl⟩

/-- With a Free flag and no interference, the swap loop exits after exactly
one attempt, for any fuel. -/
theorem lockWithSwapSolo_free {T : Type} (s : SpinLock T)
    (h : s.locked = false) (n : Nat) :
    lockWithSwapSolo (n + 1) s = some (1, { s with locked := true }) := by
  simp [lockWithSwapSolo, atomicSwap, h]

/-- With a Free flag and no interference, the compare-exchange loop exits
after exactly `k + 1` attempts when the first `k` attempts fail spuriously
and the next does not. -/
theorem lockWithCasSolo_free {T : Type} (s : SpinLock T)
    (h : s.locked = false) (k : Nat) :
    lockWithCasSolo (List.replicate k true ++ [false]) s =
      some (k + 1, { s with locked := true }) := by
  induction k with
  | zero => simp [lockWithCasSolo, atomicCompareExchangeWeak, h]
  | succ k ih =>
    rw [List.replicate_succ]
    simp [lockWithCasSolo, atomicCompareExchangeWeak, h, ih]

/-- C9 counterexample: with the flag Free and no other thread present (the
solo semantics), two spurious weak compare-exchange failures make
`lock_with_cas` take three attempts — it keeps spinning although the flag is
already Free, so spurious failures put the attempt count outside any fixed
bound. -/
theorem cas_free_flag_spin_counterexample :
    (SpinLock.new (0 : Nat)).locked = false ∧
    (lockWithCasSolo [true, true, false] (SpinLock.new (0 : Nat))).map
      (fun p => p.1) = some 3 := by
  decide

/-- C9 amended: with the flag Free and no other thread interfering,
`lock_with_swap` returns after exactly one attempt and emits no spin hint,
and `lock_with_cas` returns after exactly `k + 1` attempts where `k` is the
number of spurious weak compare-exchange failures — in particular after
exactly one attempt when no spurious failure occurs. -/
theorem no_contention_attempts {T : Type} (s : SpinLock T)
    (hfree : s.locked = false) (n k : Nat) :
    lockWithSwapSolo (n + 1) s = some (1, { s with locked := true }) ∧
    SpinEvent.spinHint ∉ (lockWithSwapRun [false]).1 ∧
    lockWithCasSolo (List.replicate k true ++ [false]) s =
      some (k + 1, { s with locked := true }) :=
  ⟨lockWithSwapSolo_free s hfree n, by decide, lockWithCasSolo_free s hfree k⟩

/-- Witness for C9 (amended) on a fresh lock, with two spurious failures. -/
theorem no_contention_attempts_witness :
    (SpinLock.new (7 : Nat)).locked = false ∧
    (lockWithSwapSolo (0 + 1) (SpinLock.new (7 : Nat)) =
      some (1, { SpinLock.new (7 : Nat) with locked := true }) ∧
    SpinEvent.spinHint ∉ (lockWithSwapRun [false]).1 ∧
    lockWithCasSolo (List.replicate 2 true ++ [false]) (SpinLock.new (7 : Nat)) =
      some (2 + 1, { SpinLock.new (7 : Nat) with locked := true })) :=
  ⟨rfl, no_contention_attempts (SpinLock.new 7) rfl 0 2⟩

/-- With a Free flag, the compare-exchange loop on any spurious schedule
ending in a non-spurious attempt acquires, producing the Held state. -/
theorem lockWithCasSolo_exists_success {T : Type} (s : SpinLock T)
    (h : s.locked = false) (sps : List Bool) :
    ∃ m, lockWithCasSolo (sps ++ [false]) s =
      some (m, { s with locked := true }) := by
  induction sps with
  | nil => exact ⟨1, by simp [lockWithCasSolo, atomicCompareExchangeWeak, h]⟩
  | cons sp rest ih =>
    cases sp
    · exact ⟨1, by simp [lockWithCasSolo, atomicCompareExchangeWeak, h]⟩
    · obtain ⟨m, hm⟩ := ih
      exact ⟨m + 1,
        by simp [lockWithCasSolo, atomicCompareExchangeWeak, h, hm]⟩

/-- C10. Starting from any Free lock, acquiring by either operation and then
immediately dropping the Guard returns the lock to exactly its starting
state: the flag is Free again and the payload value is untouched by
acquisition and release. -/
theorem acquire_then_drop_roundtrip {T : Type} (s : SpinLock T)
    (hfree : s.locked = false) (n : Nat) (sps : List Bool) :
    (lockWithSwapSolo (n + 1) s).map (fun p => guardDrop p.2) = some s ∧
    (lockWithCasSolo (sps ++ [false]) s).map (fun p => guardDrop p.2) =
      some s := by
  have hdrop : guardDrop { s with locked := true } = s := by
    obtain ⟨l, v⟩ := s
    simp only at hfree
    subst hfree
    rfl
  constructor
  · rw [lockWithSwapSolo_free s hfree n]
    simp [hdrop]
  · obtain ⟨m, hm⟩ := lockWithCasSolo_exists_success s hfree sps
    rw [hm]
    simp [hdrop]

/-- Witness for C10 on a fresh lock, with one spurious failure on the
compare-exchange side. -/
theorem acquire_then_drop_roundtrip_witness :
    (SpinLock.new (3 : Nat)).locked = false ∧
    ((lockWithSwapSolo (0 + 1) (SpinLock.new (3 : Nat))).map
      (fun p => guardDrop p.2) = some (SpinLock.new (3 : Nat)) ∧
    (lockWithCasSolo ([true] ++ [false]) (SpinLock.new (3 : Nat))).map
      (fun p => guardDrop p.2) = some (SpinLock.new (3 : Nat))) :=
  ⟨rfl, acquire_then_drop_roundtrip (SpinLock.new 3) rfl 0 [true]⟩

end MySpinLock
